import Mathlib

/-!
Verification development for the DeFi-Center daily balance-reconciliation
engine.  The Python sources (trackers/steth.py, trackers/ausdc.py,
trackers/aave.py, app.py) are shallowly embedded below: the JSON-RPC
endpoint is modelled as a `Chain` of response oracles (block timestamps,
balances, summed transfer logs), calendar dates are modelled as day
indices (days since the Unix epoch, so UTC midnight of day `d` is the
timestamp `86400 * d`), Python floats produced by dividing integer
smallest-unit amounts by `10 ** decimals` are modelled as rationals, and
Python exceptions are modelled with `Option`/`Except`.
-/

set_option maxRecDepth 8000

/-- The `mode` argument of `_block_by_time` (both trackers). -/
inductive BMode
  | before
  | after
deriving DecidableEq

/-- The `while lo <= hi` loop body of `_block_by_time`
(steth.py lines 40-57, ausdc.py lines 94-114), embedded with explicit
fuel; `lo` stays a natural number (it only ever grows from 0) while `hi`
is an integer because the Python loop exits with `hi = -1` when it
searches down past block 0.  `best` is the running candidate, `none`
standing for Python's `None`. -/
def bbtGo (T : Nat → Nat) (ts : Nat) (mode : BMode) : Nat → Nat → Int → Option Nat → Option Nat
  | 0, _, _, best => best
  | fuel + 1, lo, hi, best =>
    if (lo : Int) ≤ hi then
      let mid : Nat := (lo + hi.toNat) / 2
      let tsm := T mid
      if tsm = ts then
        match mode with
        | BMode.before => bbtGo T ts mode fuel (mid + 1) hi (some mid)
        | BMode.after => bbtGo T ts mode fuel lo ((mid : Int) - 1) (some mid)
      else if tsm < ts then
        bbtGo T ts mode fuel (mid + 1) hi (if mode = BMode.before then some mid else best)
      else
        bbtGo T ts mode fuel lo ((mid : Int) - 1) (if mode = BMode.after then some mid else best)
    else best

/-- `_block_by_time(infura_url, ts, mode)` (identical logic in steth.py
lines 34-57 and ausdc.py lines 87-114): binary search over
`[0, latest]`, returning `0` when `best` is still `None` at loop exit.
`T` is the chain's block-number-to-timestamp mapping (the responses of
`eth_getBlockByNumber`), `latest` the response of `eth_blockNumber`.
The fuel `latest + 2` strictly dominates the loop's decreasing measure
`hi + 1 - lo`, which starts at `latest + 1`. -/
def block_by_time (T : Nat → Nat) (latest ts : Nat) (mode : BMode) : Nat :=
  (bbtGo T ts mode (latest + 2) 0 (latest : Int) none).getD 0

/-- The connected RPC endpoint, for one fixed (wallet, token) pair:
each field records the endpoint's response to one family of requests.
`T` and `latest` are as in `block_by_time`; `code` is the
`eth_getCode` response (`none` for Python `None`); `balance b` is the
decoded `balanceOf` result at block `b`; `sumIn`/`sumOut` are the
summed inbound/outbound Transfer-log amounts of `_sum_transfers`
(steth.py lines 140-151) over a block range; `deposits`/`withdrawals`
are the summed mint/burn amounts of `_deposits_withdrawals_for_day`
(ausdc.py lines 227-260) over a block range; the two `firstLog` fields
are the block numbers of the first inbound / first outbound Transfer
log found by the chunked stop-at-first scans of
`get_first_activity_date_atoken` (ausdc.py lines 202-215). -/
structure Chain where
  T : Nat → Nat
  latest : Nat
  code : Option String
  balance : Nat → Nat
  sumIn : Nat → Nat → Nat
  sumOut : Nat → Nat → Nat
  deposits : Nat → Nat → Nat
  withdrawals : Nat → Nat → Nat
  firstLogInBlock : Option Nat
  firstLogOutBlock : Option Nat

/-- UTC midnight of day `d`: `datetime(d.year, d.month, d.day, 0, 0, 0, utc).timestamp()`. -/
def dayStartTs (d : Nat) : Nat := 86400 * d

/-- `datetime(d.year, d.month, d.day, 23, 59, 59, utc).timestamp()`. -/
def dayEndTs (d : Nat) : Nat := 86400 * d + 86399

/-- Timestamp of the chain head (`latest_ts` in both trackers). -/
def latestTs (c : Chain) : Nat := c.T c.latest

/-- One output row of `get_atoken_interest_range` (ausdc.py lines
318-328); the `date` column holds the day index instead of its ISO
rendering, and the float columns are modelled as rationals. -/
structure ARow where
  date : Nat
  start_block : Nat
  end_block : Nat
  start_balance : ℚ
  end_balance : ℚ
  deposits : ℚ
  withdrawals : ℚ
  net_transfers : ℚ
  daily_interest : ℚ
deriving DecidableEq

/-- Default row (used only to state index lookups without dependent types). -/
def defARow : ARow :=
  { date := 0, start_block := 0, end_block := 0, start_balance := 0, end_balance := 0,
    deposits := 0, withdrawals := 0, net_transfers := 0, daily_interest := 0 }

/-- The loop body of `get_atoken_interest_range` for one day `d` that
survived the `start_ts > latest_ts` break check (ausdc.py lines
299-328).  `decimals` is the underlying-token decimal count, so
`UNIT = 10 ** decimals`. -/
def atokenRow (c : Chain) (decimals : Nat) (d : Nat) : ARow :=
  let UNIT : ℚ := (10 : ℚ) ^ decimals
  let end_ts := min (dayEndTs d) (latestTs c)
  let start_blk := block_by_time c.T c.latest (dayStartTs d) BMode.after
  let end_blk0 := block_by_time c.T c.latest end_ts BMode.before
  let end_blk := if end_blk0 < start_blk then start_blk else end_blk0
  let start_bal := c.balance start_blk
  let end_bal := c.balance end_blk
  let deposits_wei := c.deposits start_blk end_blk
  let withdrawals_wei := c.withdrawals start_blk end_blk
  let net_transfers_wei : Int := (withdrawals_wei : Int) - (deposits_wei : Int)
  let interest_wei : Int := ((end_bal : Int) - (start_bal : Int)) + net_transfers_wei
  { date := d, start_block := start_blk, end_block := end_blk,
    start_balance := (start_bal : ℚ) / UNIT,
    end_balance := (end_bal : ℚ) / UNIT,
    deposits := (deposits_wei : ℚ) / UNIT,
    withdrawals := (withdrawals_wei : ℚ) / UNIT,
    net_transfers := (net_transfers_wei : ℚ) / UNIT,
    daily_interest := (interest_wei : ℚ) / UNIT }

/-- The `for d in _iterate_days(...)` loop of `get_atoken_interest_range`
with its `if start_ts > latest_ts: break` (ausdc.py lines 298-328):
the break discards the current day and the whole remainder of the range. -/
def atokenRows (c : Chain) (decimals : Nat) : List Nat → List ARow
  | [] => []
  | d :: ds =>
    if dayStartTs d > latestTs c then []
    else atokenRow c decimals d :: atokenRows c decimals ds

/-- `_iterate_days(start_dt, end_dt)` (ausdc.py lines 262-267): the
day indices from `s` to `e` inclusive, empty when `e < s`. -/
def iterate_days (s e : Nat) : List Nat := List.range' s (e + 1 - s)

/-- `get_atoken_interest_range(wallet, token, start_iso, end_iso, infura_url, decimals)`
(ausdc.py lines 269-330) after ISO-date parsing: returns an empty table
when the end date precedes the start date, otherwise walks the days.
The wallet, token and endpoint are fixed inside `c`; note that the
function performs no bytecode check and never reads `c.code`. -/
def get_atoken_interest_range (c : Chain) (decimals : Nat) (s e : Nat) : List ARow :=
  if e < s then [] else atokenRows c decimals (iterate_days s e)

/-- `total_days` computed by the dashboard executor
`run_window_and_stream_atoken` (app.py line 339). -/
def run_window_total_days (start_d end_d : Nat) : Int := (end_d : Int) - (start_d : Int) + 1

/-- The guard of `run_window_and_stream_atoken` (app.py lines 339-343):
the window is actually run only when `0 < total_days ≤ 180`; larger
windows are refused with an error message, empty ones with an info
message. -/
def run_window_and_stream_atoken_accepts (start_d end_d : Nat) : Bool :=
  decide (0 < run_window_total_days start_d end_d) &&
  decide (run_window_total_days start_d end_d ≤ 180)

/-- One output row of `get_steth_rebases_from_first_activity`
(steth.py lines 196-206). -/
structure SRow where
  date : Nat
  start_block : Nat
  end_block : Nat
  start_balance_steth : ℚ
  end_balance_steth : ℚ
  transfers_in_steth : ℚ
  transfers_out_steth : ℚ
  net_transfers_steth : ℚ
  daily_rebase_reward_steth : ℚ
deriving DecidableEq

/-- Default stETH row for index lookups. -/
def defSRow : SRow :=
  { date := 0, start_block := 0, end_block := 0, start_balance_steth := 0,
    end_balance_steth := 0, transfers_in_steth := 0, transfers_out_steth := 0,
    net_transfers_steth := 0, daily_rebase_reward_steth := 0 }

/-- `WEI_PER_STETH = 10**18` (steth.py line 9), as the rational divisor. -/
def WEI_PER_STETH : ℚ := (10 : ℚ) ^ 18

/-- The loop body of `get_steth_rebases_from_first_activity` for one
day `d` that survived the break check (steth.py lines 176-206). -/
def stethRow (c : Chain) (d : Nat) : SRow :=
  let end_ts := min (dayEndTs d) (latestTs c)
  let start_blk := block_by_time c.T c.latest (dayStartTs d) BMode.after
  let end_blk0 := block_by_time c.T c.latest end_ts BMode.before
  let end_blk := if end_blk0 < start_blk then start_blk else end_blk0
  let start_bal := c.balance start_blk
  let end_bal := c.balance end_blk
  let in_wei := c.sumIn start_blk end_blk
  let out_wei := c.sumOut start_blk end_blk
  let net_wei : Int := (in_wei : Int) - (out_wei : Int)
  let rebase_wei : Int := ((end_bal : Int) - (start_bal : Int)) - net_wei
  { date := d, start_block := start_blk, end_block := end_blk,
    start_balance_steth := (start_bal : ℚ) / WEI_PER_STETH,
    end_balance_steth := (end_bal : ℚ) / WEI_PER_STETH,
    transfers_in_steth := (in_wei : ℚ) / WEI_PER_STETH,
    transfers_out_steth := (out_wei : ℚ) / WEI_PER_STETH,
    net_transfers_steth := (net_wei : ℚ) / WEI_PER_STETH,
    daily_rebase_reward_steth := (rebase_wei : ℚ) / WEI_PER_STETH }

/-- The `while d <= today` loop of `get_steth_rebases_from_first_activity`
with its `if start_ts > latest_ts: break` (steth.py lines 175-208). -/
def stethRows (c : Chain) : List Nat → List SRow
  | [] => []
  | d :: ds =>
    if dayStartTs d > latestTs c then []
    else stethRow c d :: stethRows c ds

/-- `get_steth_rebases_from_first_activity(wallet, infura_url)`
(steth.py lines 155-210).  The network scan of
`_find_first_activity_block` is abstracted as the parameter
`firstBlock` (its result, `None` when the wallet has no activity), and
`today = datetime.now(utc).date()` as the parameter `today`; day 0 of
the walk is the UTC date of `firstBlock`'s timestamp, i.e. day index
`c.T fb / 86400`. -/
def get_steth_rebases_from_first_activity (c : Chain) (firstBlock : Option Nat) (today : Nat) : List SRow :=
  match firstBlock with
  | none => []
  | some fb => stethRows c (iterate_days (c.T fb / 86400) today)

/-- One output row of `get_aave_interest` (aave.py lines 9-14); the
date is an integer day index (it can fall before the epoch for huge
`days_back`, hence `Int`). -/
structure AaveRow where
  date : Int
  start_balance : ℚ
  end_balance : ℚ
  daily_interest : ℚ
deriving DecidableEq

/-- Default Aave row for index lookups. -/
def defAaveRow : AaveRow := { date := 0, start_balance := 0, end_balance := 0, daily_interest := 0 }

/-- `get_aave_interest(wallet, days_back)` (aave.py lines 4-15):
builds one all-zero row per `d in range(days_back)` dated
`today - (d+1)`, then reverses the frame (`.iloc[::-1]`).  `today`
stands for `datetime.utcnow().date()`; the wallet argument is kept to
show it is never consulted. -/
def get_aave_interest (wallet : String) (today : Int) (days_back : Nat) : List AaveRow :=
  ((List.range days_back).map (fun (d : Nat) =>
    ({ date := today - ((d : Int) + 1), start_balance := 0, end_balance := 0,
       daily_interest := 0 } : AaveRow))).reverse

/-- Value of one hex digit, else `none` (the digit set accepted by
Python's `int(_, 16)`). -/
def hexDigitVal (c : Char) : Option Nat :=
  if ('0' ≤ c ∧ c ≤ '9') then some (c.toNat - 48)
  else if ('a' ≤ c ∧ c ≤ 'f') then some (c.toNat - 87)
  else if ('A' ≤ c ∧ c ≤ 'F') then some (c.toNat - 55)
  else none

/-- Accumulating hex-digit parser; `none` models a `ValueError`. -/
def parseHexAux : List Char → Nat → Option Nat
  | [], acc => some acc
  | ch :: cs, acc =>
    match hexDigitVal ch with
    | some v => parseHexAux cs (16 * acc + v)
    | none => none

/-- Python `int(s, 16)` on a response string: an optional `0x`/`0X`
prefix is stripped, after which at least one hex digit is required —
`int("", 16)` and `int("0x", 16)` raise, modelled as `none`. -/
def int16 (s : String) : Option Nat :=
  let cs := s.data
  let cs2 := if cs.take 2 = ['0', 'x'] ∨ cs.take 2 = ['0', 'X'] then cs.drop 2 else cs
  if cs2 = [] then none else parseHexAux cs2 0

/-- `_int_hex_safe(x)` (ausdc.py lines 25-29): `None`, `""` and
`"0x"` all decode to `0`; anything else goes through `int(x, 16)`. -/
def int_hex_safe (x : Option String) : Option Nat :=
  match x with
  | none => some 0
  | some s => if s = "" ∨ s = "0x" then some 0 else int16 s

/-- The decoding step of ausdc.py's `_balance_of` (lines 116-120):
the raw `eth_call` response is decoded with `_int_hex_safe`. -/
def ausdc_balance_of_decode (res : Option String) : Option Nat := int_hex_safe res

/-- The decoding step of steth.py's `_balance_of` (lines 59-63): the
raw `eth_call` response is decoded with a bare `int(res, 16)`. -/
def steth_balance_of_decode (res : String) : Option Nat := int16 res

/-- The bytecode test of `_assert_token_on_network` (ausdc.py lines
78-82): `not code or code == "0x"`. -/
def bad_code : Option String → Bool
  | none => true
  | some s => s == "" || s == "0x"

/-- `_assert_token_on_network(infura_url, token)` (ausdc.py lines
78-82), with the `eth_getCode` response supplied by the chain. -/
def assert_token_on_network (c : Chain) : Except String Unit :=
  if bad_code c.code then .error ("no bytecode on this RPC network (wrong chain?)")
  else .ok ()

/-- The balance binary-search loop of `_find_first_nonzero_balance_block`
(ausdc.py lines 166-174), fuel-embedded like `bbtGo`. -/
def ffnzGo (bal : Nat → Nat) : Nat → Nat → Int → Option Nat → Option Nat
  | 0, _, _, ans => ans
  | fuel + 1, lo, hi, ans =>
    if (lo : Int) ≤ hi then
      let mid : Nat := (lo + hi.toNat) / 2
      if bal mid > 0 then ffnzGo bal fuel lo ((mid : Int) - 1) (some mid)
      else ffnzGo bal fuel (mid + 1) hi ans
    else ans

/-- `_find_first_nonzero_balance_block(infura_url, token, wallet)`
(ausdc.py lines 156-175); `1577836800` is the 2020-01-01 UTC anchor
timestamp. -/
def find_first_nonzero_balance_block (c : Chain) : Option Nat :=
  if c.latest = 0 then none
  else
    let lo0 := block_by_time c.T c.latest 1577836800 BMode.after
    let lo := if lo0 = 0 then 1 else lo0
    ffnzGo c.balance (c.latest + 2) lo (c.latest : Int) none

/-- `get_first_activity_date_atoken(wallet, token, infura_url)`
(ausdc.py lines 177-223), returning the day index of the first
activity.  The very first RPC the Python function issues is the
`eth_getCode` probe of `_assert_token_on_network`; when that check
fails the function raises before any block-search RPC, which the
embedding reflects by depending only on `c.code` on that path.  The
fallback chunked log scans are abstracted by the chain's
`firstLogInBlock` / `firstLogOutBlock` oracles (inbound checked
first). -/
def get_first_activity_date_atoken (c : Chain) : Except String (Option Nat) :=
  match assert_token_on_network c with
  | .error e => .error e
  | .ok _ =>
    match find_first_nonzero_balance_block c with
    | some fb => .ok (some (c.T fb / 86400))
    | none =>
      match c.firstLogInBlock with
      | some blk => .ok (some (c.T blk / 86400))
      | none =>
        match c.firstLogOutBlock with
        | some blk => .ok (some (c.T blk / 86400))
        | none => .ok none

example : block_by_time (fun b => b) 10 5 BMode.before = 5 := by decide
example : block_by_time (fun b => b) 10 5 BMode.after = 5 := by decide
example : block_by_time (fun b => 2 * b) 10 5 BMode.before = 2 := by decide
example : block_by_time (fun b => 2 * b) 10 5 BMode.after = 3 := by decide
example : block_by_time (fun b => b) 5 100 BMode.after = 0 := by decide
example : block_by_time (fun b => b + 7) 5 3 BMode.before = 0 := by decide
example : int16 ("0x") = none := by decide
example : int16 ("0x1a") = some 26 := by decide
example : int_hex_safe (some ("0x")) = some 0 := by decide

/-! ### Correctness of the timestamp binary search -/

/-- Loop invariant proof for `_block_by_time` in `before` mode: given a
monotone timestamp table, on exit the candidate is `none` exactly when
no block of `[0, latest]` has timestamp ≤ `ts`, and otherwise it is the
greatest such block.  The three invariant hypotheses say: every block
above `hi` overshoots `ts`; while no candidate exists, every block
below `lo` overshoots; and a candidate is a satisfying block below `lo`
dominating every satisfying block below `lo`. -/
theorem bbtGo_before_spec (T : Nat → Nat) (ts latest : Nat) (hmono : Monotone T) :
    ∀ (fuel : Nat) (lo : Nat) (hi : Int) (best : Option Nat),
      (hi + 1 - (lo : Int)).toNat < fuel →
      hi ≤ (latest : Int) →
      (∀ b : Nat, b ≤ latest → hi < (b : Int) → ts < T b) →
      (best = none → ∀ b : Nat, b < lo → ts < T b) →
      (∀ v : Nat, best = some v → T v ≤ ts ∧ v < lo ∧ v ≤ latest ∧
        ∀ b : Nat, b < lo → T b ≤ ts → b ≤ v) →
      (bbtGo T ts BMode.before fuel lo hi best = none → ∀ b : Nat, b ≤ latest → ts < T b) ∧
      (∀ v : Nat, bbtGo T ts BMode.before fuel lo hi best = some v →
        T v ≤ ts ∧ v ≤ latest ∧ ∀ b : Nat, b ≤ latest → T b ≤ ts → b ≤ v) := by
  intro fuel
  induction fuel with
  | zero => intro lo hi best hmeas; omega
  | succ n ih =>
    intro lo hi best hmeas hhil hinv1 hinv2 hinv3
    by_cases hlh : (lo : Int) ≤ hi
    · have hhi0 : 0 ≤ hi := le_trans (by positivity) hlh
      have hlole : lo ≤ hi.toNat := by omega
      have hhilat : hi.toNat ≤ latest := by omega
      have hmidlo : lo ≤ (lo + hi.toNat) / 2 := by omega
      have hmidhi : (lo + hi.toNat) / 2 ≤ hi.toNat := by omega
      have hmidlat : (lo + hi.toNat) / 2 ≤ latest := le_trans hmidhi hhilat
      simp only [bbtGo, if_pos hlh]
      set mid := (lo + hi.toNat) / 2 with hmid
      by_cases hts : T mid = ts
      · rw [if_pos hts]
        exact ih (mid + 1) hi (some mid)
          (by omega) hhil hinv1
          (fun h => Option.noConfusion h)
          (fun v hv => by
            cases hv
            exact ⟨le_of_eq hts, Nat.lt_succ_self mid, hmidlat,
              fun b hb _ => by omega⟩)
      · rw [if_neg hts]
        by_cases hts2 : T mid < ts
        · rw [if_pos hts2]
          simp only [reduceCtorEq, if_true, if_pos rfl]
          exact ih (mid + 1) hi (some mid)
            (by omega) hhil hinv1
            (fun h => Option.noConfusion h)
            (fun v hv => by
              cases hv
              exact ⟨le_of_lt hts2, Nat.lt_succ_self mid, hmidlat,
                fun b hb _ => by omega⟩)
        · rw [if_neg hts2]
          have htsgt : ts < T mid := by omega
          have hifa : (if BMode.before = BMode.after then some mid else best) = best := by
            simp
          rw [hifa]
          exact ih lo ((mid : Int) - 1) best
            (by omega) (by omega)
            (fun b hb hgt => by
              have hmb : mid ≤ b := by omega
              exact lt_of_lt_of_le htsgt (hmono hmb))
            hinv2 hinv3
    · simp only [bbtGo, if_neg hlh]
      constructor
      · intro hb b hble
        by_cases hbh : (b : Int) ≤ hi
        · exact hinv2 hb b (by omega)
        · exact hinv1 b hble (by omega)
      · intro v hv
        obtain ⟨h1, h2, h3, h4⟩ := hinv3 v hv
        refine ⟨h1, h3, ?_⟩
        intro b hble htb
        by_cases hbh : (b : Int) ≤ hi
        · exact h4 b (by omega) htb
        · exact absurd htb (by
            have := hinv1 b hble (by omega)
            omega)

/-- Loop invariant proof for `_block_by_time` in `after` mode: on exit
the candidate is `none` exactly when no block of `[0, latest]` has
timestamp ≥ `ts`, and otherwise it is the least such block. -/
theorem bbtGo_after_spec (T : Nat → Nat) (ts latest : Nat) (hmono : Monotone T) :
    ∀ (fuel : Nat) (lo : Nat) (hi : Int) (best : Option Nat),
      (hi + 1 - (lo : Int)).toNat < fuel →
      hi ≤ (latest : Int) →
      (∀ b : Nat, b < lo → T b < ts) →
      (best = none → ∀ b : Nat, b ≤ latest → hi < (b : Int) → T b < ts) →
      (∀ v : Nat, best = some v → ts ≤ T v ∧ hi < (v : Int) ∧ v ≤ latest ∧
        ∀ b : Nat, b ≤ latest → hi < (b : Int) → ts ≤ T b → v ≤ b) →
      (bbtGo T ts BMode.after fuel lo hi best = none → ∀ b : Nat, b ≤ latest → T b < ts) ∧
      (∀ v : Nat, bbtGo T ts BMode.after fuel lo hi best = some v →
        ts ≤ T v ∧ v ≤ latest ∧ ∀ b : Nat, b ≤ latest → ts ≤ T b → v ≤ b) := by
  intro fuel
  induction fuel with
  | zero => intro lo hi best hmeas; omega
  | succ n ih =>
    intro lo hi best hmeas hhil hinv1 hinv2 hinv3
    by_cases hlh : (lo : Int) ≤ hi
    · have hhi0 : 0 ≤ hi := le_trans (by positivity) hlh
      have hlole : lo ≤ hi.toNat := by omega
      have hhilat : hi.toNat ≤ latest := by omega
      have hmidlo : lo ≤ (lo + hi.toNat) / 2 := by omega
      have hmidhi : (lo + hi.toNat) / 2 ≤ hi.toNat := by omega
      have hmidlat : (lo + hi.toNat) / 2 ≤ latest := le_trans hmidhi hhilat
      simp only [bbtGo, if_pos hlh]
      set mid := (lo + hi.toNat) / 2 with hmid
      by_cases hts : T mid = ts
      · rw [if_pos hts]
        exact ih lo ((mid : Int) - 1) (some mid)
          (by omega) (by omega) hinv1
          (fun h => Option.noConfusion h)
          (fun v hv => by
            cases hv
            exact ⟨le_of_eq hts.symm, by omega, hmidlat,
              fun b hb hgt _ => by omega⟩)
      · rw [if_neg hts]
        by_cases hts2 : T mid < ts
        · rw [if_pos hts2]
          have hifa : (if BMode.after = BMode.before then some mid else best) = best := by
            simp
          rw [hifa]
          exact ih (mid + 1) hi best
            (by omega) hhil
            (fun b hb => by
              have hmb : b ≤ mid := by omega
              exact lt_of_le_of_lt (hmono hmb) hts2)
            hinv2 hinv3
        · rw [if_neg hts2]
          have htsge : ts ≤ T mid := by omega
          simp only [reduceCtorEq, if_true, if_pos rfl]
          exact ih lo ((mid : Int) - 1) (some mid)
            (by omega) (by omega) hinv1
            (fun h => Option.noConfusion h)
            (fun v hv => by
              cases hv
              exact ⟨htsge, by omega, hmidlat,
                fun b hb hgt _ => by omega⟩)
    · simp only [bbtGo, if_neg hlh]
      constructor
      · intro hb b hble
        by_cases hbl : b < lo
        · exact hinv1 b hbl
        · exact hinv2 hb b hble (by omega)
      · intro v hv
        obtain ⟨h1, h2, h3, h4⟩ := hinv3 v hv
        refine ⟨h1, h3, ?_⟩
        intro b hble htb
        by_cases hbl : b < lo
        · exact absurd htb (by
            have := hinv1 b hbl
            omega)
        · exact h4 b hble (by omega) htb

/-- `_block_by_time(ts, "before")` returns the greatest block of
`[0, latest]` whose timestamp is ≤ `ts`, whenever one exists. -/
theorem block_by_time_before_max (T : Nat → Nat) (latest ts : Nat) (hmono : Monotone T)
    (hsat : ∃ b, b ≤ latest ∧ T b ≤ ts) :
    T (block_by_time T latest ts BMode.before) ≤ ts ∧
    block_by_time T latest ts BMode.before ≤ latest ∧
    ∀ b, b ≤ latest → T b ≤ ts → b ≤ block_by_time T latest ts BMode.before := by
  have h := bbtGo_before_spec T ts latest hmono (latest + 2) 0 (latest : Int) none
    (by omega) (le_refl _) (fun b hb hgt => absurd hgt (by omega))
    (fun _ b hb => absurd hb (Nat.not_lt_zero b))
    (fun v hv => Option.noConfusion hv)
  unfold block_by_time
  cases hr : bbtGo T ts BMode.before (latest + 2) 0 (latest : Int) none with
  | none =>
    obtain ⟨b, hb, hTb⟩ := hsat
    exact absurd hTb (by have := h.1 hr b hb; omega)
  | some v =>
    simpa using h.2 v hr

/-- `_block_by_time(ts, "after")` returns the least block of
`[0, latest]` whose timestamp is ≥ `ts`, whenever one exists. -/
theorem block_by_time_after_min (T : Nat → Nat) (latest ts : Nat) (hmono : Monotone T)
    (hsat : ∃ b, b ≤ latest ∧ ts ≤ T b) :
    ts ≤ T (block_by_time T latest ts BMode.after) ∧
    block_by_time T latest ts BMode.after ≤ latest ∧
    ∀ b, b ≤ latest → ts ≤ T b → block_by_time T latest ts BMode.after ≤ b := by
  have h := bbtGo_after_spec T ts latest hmono (latest + 2) 0 (latest : Int) none
    (by omega) (le_refl _) (fun b hb => absurd hb (Nat.not_lt_zero b))
    (fun _ b hb hgt => absurd hgt (by omega))
    (fun v hv => Option.noConfusion hv)
  unfold block_by_time
  cases hr : bbtGo T ts BMode.after (latest + 2) 0 (latest : Int) none with
  | none =>
    obtain ⟨b, hb, hTb⟩ := hsat
    exact absurd hTb (by have := h.1 hr b hb; omega)
  | some v =>
    simpa using h.2 v hr

/-- When every block's timestamp overshoots `ts` the `before` search
never records a candidate. -/
theorem bbtGo_before_none (T : Nat → Nat) (ts latest : Nat) (hfail : ∀ b, b ≤ latest → ts < T b) :
    ∀ (fuel : Nat) (lo : Nat) (hi : Int), hi ≤ (latest : Int) →
      bbtGo T ts BMode.before fuel lo hi none = none := by
  intro fuel
  induction fuel with
  | zero => intros; rfl
  | succ n ih =>
    intro lo hi hhil
    by_cases hlh : (lo : Int) ≤ hi
    · have hhi0 : 0 ≤ hi := le_trans (by positivity) hlh
      have hmidlat : (lo + hi.toNat) / 2 ≤ latest := by omega
      simp only [bbtGo, if_pos hlh]
      set mid := (lo + hi.toNat) / 2 with hmid
      have hgt : ts < T mid := hfail mid hmidlat
      rw [if_neg (by omega), if_neg (by omega)]
      have hifa : (if BMode.before = BMode.after then some mid else none) = none := by simp
      rw [hifa]
      exact ih lo ((mid : Int) - 1) (by omega)
    · simp [bbtGo, hlh]

/-- When every block's timestamp undershoots `ts` the `after` search
never records a candidate. -/
theorem bbtGo_after_none (T : Nat → Nat) (ts latest : Nat) (hfail : ∀ b, b ≤ latest → T b < ts) :
    ∀ (fuel : Nat) (lo : Nat) (hi : Int), hi ≤ (latest : Int) →
      bbtGo T ts BMode.after fuel lo hi none = none := by
  intro fuel
  induction fuel with
  | zero => intros; rfl
  | succ n ih =>
    intro lo hi hhil
    by_cases hlh : (lo : Int) ≤ hi
    · have hhi0 : 0 ≤ hi := le_trans (by positivity) hlh
      have hmidlat : (lo + hi.toNat) / 2 ≤ latest := by omega
      simp only [bbtGo, if_pos hlh]
      set mid := (lo + hi.toNat) / 2 with hmid
      have hlt : T mid < ts := hfail mid hmidlat
      rw [if_neg (by omega), if_pos hlt]
      have hifa : (if BMode.after = BMode.before then some mid else none) = none := by simp
      rw [hifa]
      exact ih (mid + 1) hi hhil
    · simp [bbtGo, hlh]

/-- Unsatisfiable queries return block 0 (both modes). -/
theorem block_by_time_unsat (T : Nat → Nat) (latest ts : Nat) :
    ((∀ b, b ≤ latest → ts < T b) → block_by_time T latest ts BMode.before = 0) ∧
    ((∀ b, b ≤ latest → T b < ts) → block_by_time T latest ts BMode.after = 0) := by
  constructor
  · intro h
    unfold block_by_time
    rw [bbtGo_before_none T ts latest h (latest + 2) 0 (latest : Int) (le_refl _)]
    rfl
  · intro h
    unfold block_by_time
    rw [bbtGo_after_none T ts latest h (latest + 2) 0 (latest : Int) (le_refl _)]
    rfl

/-! ### Structure of the per-day row lists -/

/-- Every element of an `atokenRows` walk is the row of one of the
requested days. -/
theorem mem_atokenRows (c : Chain) (decimals : Nat) :
    ∀ (ds : List Nat) (r : ARow), r ∈ atokenRows c decimals ds →
      ∃ d ∈ ds, r = atokenRow c decimals d := by
  intro ds
  induction ds with
  | nil => intro r hr; simp [atokenRows] at hr
  | cons d ds ih =>
    intro r hr
    by_cases hbrk : dayStartTs d > latestTs c
    · simp [atokenRows, hbrk] at hr
    · simp only [atokenRows, if_neg hbrk] at hr
      rcases List.mem_cons.mp hr with h | h
      · exact ⟨d, List.mem_cons_self _ _, h⟩
      · obtain ⟨d2, hd2, hr2⟩ := ih r h
        exact ⟨d2, List.mem_cons_of_mem _ hd2, hr2⟩

/-- Every element of a `stethRows` walk is the row of one of the
requested days. -/
theorem mem_stethRows (c : Chain) :
    ∀ (ds : List Nat) (r : SRow), r ∈ stethRows c ds →
      ∃ d ∈ ds, r = stethRow c d := by
  intro ds
  induction ds with
  | nil => intro r hr; simp [stethRows] at hr
  | cons d ds ih =>
    intro r hr
    by_cases hbrk : dayStartTs d > latestTs c
    · simp [stethRows, hbrk] at hr
    · simp only [stethRows, if_neg hbrk] at hr
      rcases List.mem_cons.mp hr with h | h
      · exact ⟨d, List.mem_cons_self _ _, h⟩
      · obtain ⟨d2, hd2, hr2⟩ := ih r h
        exact ⟨d2, List.mem_cons_of_mem _ hd2, hr2⟩

/-- When every requested day starts at or before the chain head's
timestamp, the break never fires and the walk emits one row per day. -/
theorem atokenRows_complete (c : Chain) (decimals : Nat) :
    ∀ ds : List Nat, (∀ d ∈ ds, dayStartTs d ≤ latestTs c) →
      atokenRows c decimals ds = ds.map (atokenRow c decimals) := by
  intro ds
  induction ds with
  | nil => intro _; rfl
  | cons d ds ih =>
    intro h
    have hd := h d (List.mem_cons_self _ _)
    simp only [atokenRows, List.map_cons, if_neg (by omega : ¬ dayStartTs d > latestTs c)]
    rw [ih (fun x hx => h x (List.mem_cons_of_mem _ hx))]

/-- `get_atoken_interest_range` on an in-history range is exactly the
per-day row map over the requested days. -/
theorem get_atoken_complete (c : Chain) (decimals s e : Nat)
    (hse : s ≤ e) (hhist : 86400 * e ≤ latestTs c) :
    get_atoken_interest_range c decimals s e =
      (iterate_days s e).map (atokenRow c decimals) := by
  unfold get_atoken_interest_range
  rw [if_neg (by omega)]
  apply atokenRows_complete
  intro d hd
  have hde : d ≤ e := by
    unfold iterate_days at hd
    have := List.mem_range'_1.mp hd
    omega
  unfold dayStartTs
  calc 86400 * d ≤ 86400 * e := by omega
    _ ≤ latestTs c := hhist

/-- The date column of a day's row is that day. -/
theorem atokenRow_date (c : Chain) (decimals d : Nat) :
    (atokenRow c decimals d).date = d := rfl

/-- Core boundary fact: for one day window `[A, B]` within chain
history (`T 0 ≤ B`, `B + 1 ≤ T latest`), the next day's resolved start
block (`after` search at `B + 1`) is the current day's corrected end
block plus one — except when the day's raw window was empty and got
collapsed, in which case the corrected end block equals the day's own
start block and the next start block coincides with it. -/
theorem adjacent_day_blocks (T : Nat → Nat) (latest : Nat) (hmono : Monotone T)
    (A B : Nat) (hAB : A ≤ B) (h0 : T 0 ≤ B) (hlat : B + 1 ≤ T latest) :
    (block_by_time T latest (B + 1) BMode.after =
      (if block_by_time T latest B BMode.before < block_by_time T latest A BMode.after
       then block_by_time T latest A BMode.after
       else block_by_time T latest B BMode.before) + 1) ∨
    ((if block_by_time T latest B BMode.before < block_by_time T latest A BMode.after
      then block_by_time T latest A BMode.after
      else block_by_time T latest B BMode.before) = block_by_time T latest A BMode.after ∧
     block_by_time T latest (B + 1) BMode.after =
      (if block_by_time T latest B BMode.before < block_by_time T latest A BMode.after
       then block_by_time T latest A BMode.after
       else block_by_time T latest B BMode.before)) := by
  obtain ⟨hM1, hM2, hM3⟩ :=
    block_by_time_before_max T latest B hmono ⟨0, Nat.zero_le _, h0⟩
  obtain ⟨hs1, hs2, hs3⟩ :=
    block_by_time_after_min T latest A hmono ⟨latest, le_refl _, by omega⟩
  obtain ⟨hm1, hm2, hm3⟩ :=
    block_by_time_after_min T latest (B + 1) hmono ⟨latest, le_refl _, hlat⟩
  set M := block_by_time T latest B BMode.before with hMdef
  set sb := block_by_time T latest A BMode.after with hsbdef
  set m2 := block_by_time T latest (B + 1) BMode.after with hm2def
  have hMlt : M < latest := by
    rcases lt_or_eq_of_le hM2 with h | h
    · exact h
    · exfalso; rw [h] at hM1; omega
  have hTM1 : B + 1 ≤ T (M + 1) := by
    by_contra hcon
    have hle : T (M + 1) ≤ B := by omega
    have := hM3 (M + 1) (by omega) hle
    omega
  have hm2M1 : m2 ≤ M + 1 := hm3 (M + 1) (by omega) hTM1
  have hMm2 : M < m2 := by
    by_contra hcon
    have hle : m2 ≤ M := by omega
    have := hmono hle
    omega
  by_cases hcase : M < sb
  · right
    have hTsb : B + 1 ≤ T sb := by
      by_contra hcon
      have hle : T sb ≤ B := by omega
      have := hM3 sb hs2 hle
      omega
    have h1 : m2 ≤ sb := hm3 sb hs2 hTsb
    have h2 : sb ≤ m2 := hs3 m2 hm2 (by omega)
    rw [if_pos hcase]
    exact ⟨rfl, by omega⟩
  · left
    rw [if_neg hcase]
    omega

/-- The resolved blocks of a day's aToken row, for a day fully inside
chain history (so the end-of-day timestamp is not clipped). -/
theorem atokenRow_blocks (c : Chain) (decimals d : Nat)
    (h : dayEndTs d ≤ latestTs c) :
    (atokenRow c decimals d).start_block =
      block_by_time c.T c.latest (dayStartTs d) BMode.after ∧
    (atokenRow c decimals d).end_block =
      (if block_by_time c.T c.latest (dayEndTs d) BMode.before <
          block_by_time c.T c.latest (dayStartTs d) BMode.after
       then block_by_time c.T c.latest (dayStartTs d) BMode.after
       else block_by_time c.T c.latest (dayEndTs d) BMode.before) := by
  constructor
  · rfl
  · show (if block_by_time c.T c.latest (min (dayEndTs d) (latestTs c)) BMode.before <
            block_by_time c.T c.latest (dayStartTs d) BMode.after
          then block_by_time c.T c.latest (dayStartTs d) BMode.after
          else block_by_time c.T c.latest (min (dayEndTs d) (latestTs c)) BMode.before) = _
    rw [min_eq_left h]

/-- The start block of a day's aToken row (no history hypothesis
needed: the start timestamp is never clipped). -/
theorem atokenRow_start_block (c : Chain) (decimals d : Nat) :
    (atokenRow c decimals d).start_block =
      block_by_time c.T c.latest (dayStartTs d) BMode.after := rfl

/-- Row `i` of an in-history range is the row of day `s + i`. -/
theorem get_atoken_getD (c : Chain) (decimals s e i : Nat)
    (hse : s ≤ e) (hhist : 86400 * e ≤ latestTs c) (hi : i < e - s + 1) :
    (get_atoken_interest_range c decimals s e).getD i defARow =
      atokenRow c decimals (s + i) := by
  rw [get_atoken_complete c decimals s e hse hhist]
  have hlen : i < ((iterate_days s e).map (atokenRow c decimals)).length := by
    simp [iterate_days]
    omega
  rw [List.getD_eq_getElem?_getD, List.getElem?_eq_getElem hlen, Option.getD_some]
  simp only [List.getElem_map, iterate_days, List.getElem_range']
  norm_num

/-- Consecutive rows of one in-history invocation: the later row's
start block is the earlier row's end block plus one, except for a
collapsed (blockless) earlier day — one whose emitted `end_block`
equals its own `start_block` — where the later row's start block
coincides with the earlier row's end block. -/
theorem get_atoken_adjacent_core (c : Chain) (decimals s e i : Nat) (hmono : Monotone c.T)
    (h0 : c.T 0 ≤ 86400 * s) (hhist : 86400 * e ≤ latestTs c)
    (hse : s ≤ e) (hi : i + 1 < e - s + 1) :
    ((get_atoken_interest_range c decimals s e).getD (i + 1) defARow).start_block =
      ((get_atoken_interest_range c decimals s e).getD i defARow).end_block + 1 ∨
    (((get_atoken_interest_range c decimals s e).getD i defARow).end_block =
      ((get_atoken_interest_range c decimals s e).getD i defARow).start_block ∧
     ((get_atoken_interest_range c decimals s e).getD (i + 1) defARow).start_block =
      ((get_atoken_interest_range c decimals s e).getD i defARow).end_block) := by
  rw [get_atoken_getD c decimals s e i hse hhist (by omega),
      get_atoken_getD c decimals s e (i + 1) hse hhist hi]
  set d := s + i with hd
  have hd1e : d + 1 ≤ e := by omega
  have hlat : dayEndTs d + 1 ≤ latestTs c := by
    have h86 : 86400 * (d + 1) ≤ 86400 * e := by
      exact Nat.mul_le_mul_left _ hd1e
    unfold dayEndTs
    omega
  have hEnd : dayEndTs d ≤ latestTs c := by omega
  obtain ⟨hS, hE⟩ := atokenRow_blocks c decimals d hEnd
  have hadd : s + (i + 1) = d + 1 := by omega
  rw [hadd, atokenRow_start_block c decimals (d + 1),
      atokenRow_start_block c decimals d, hE]
  have hstart : dayStartTs (d + 1) = dayEndTs d + 1 := by
    unfold dayStartTs dayEndTs
    omega
  rw [hstart]
  exact adjacent_day_blocks c.T c.latest hmono (dayStartTs d) (dayEndTs d)
    (by unfold dayStartTs dayEndTs; omega)
    (by
      have h86 : 86400 * s ≤ 86400 * d := Nat.mul_le_mul_left _ (by omega)
      unfold dayEndTs
      omega)
    (by unfold latestTs at hlat; exact hlat)

/-! ### Per-row accounting formulas -/

/-- The emitted aToken columns satisfy the reconciliation identities:
`daily_interest = (end_balance - start_balance) - deposits + withdrawals`
and `net_transfers = withdrawals - deposits`. -/
theorem atokenRow_formula (c : Chain) (decimals d : Nat) :
    (atokenRow c decimals d).daily_interest =
      ((atokenRow c decimals d).end_balance - (atokenRow c decimals d).start_balance)
        - (atokenRow c decimals d).deposits + (atokenRow c decimals d).withdrawals ∧
    (atokenRow c decimals d).net_transfers =
      (atokenRow c decimals d).withdrawals - (atokenRow c decimals d).deposits := by
  have hU : ((10 : ℚ) ^ decimals) ≠ 0 := pow_ne_zero _ (by norm_num)
  simp only [atokenRow]
  push_cast
  constructor
  · field_simp
    ring
  · field_simp

/-- The emitted stETH columns satisfy
`daily_rebase = (end_balance - start_balance) - transfers_in + transfers_out`
and `net_transfers = transfers_in - transfers_out` (note the inflow-minus-
outflow orientation used by steth.py line 193). -/
theorem stethRow_formula (c : Chain) (d : Nat) :
    (stethRow c d).daily_rebase_reward_steth =
      ((stethRow c d).end_balance_steth - (stethRow c d).start_balance_steth)
        - (stethRow c d).transfers_in_steth + (stethRow c d).transfers_out_steth ∧
    (stethRow c d).net_transfers_steth =
      (stethRow c d).transfers_in_steth - (stethRow c d).transfers_out_steth := by
  have hU : WEI_PER_STETH ≠ 0 := by unfold WEI_PER_STETH; positivity
  simp only [stethRow]
  push_cast
  constructor
  · field_simp
    ring
  · field_simp

/-! ### Shape of the Aave placeholder output -/

/-- `get_aave_interest` in closed form: after the reversal, row `i`
carries date `today - days_back + i` and all-zero balances. -/
theorem get_aave_interest_eq (wallet : String) (today : Int) (days_back : Nat) :
    get_aave_interest wallet today days_back =
      (List.range days_back).map (fun (i : Nat) =>
        ({ date := today - (days_back : Int) + (i : Int), start_balance := 0,
           end_balance := 0, daily_interest := 0 } : AaveRow)) := by
  unfold get_aave_interest
  apply List.ext_getElem
  · simp
  · intro i h1 h2
    have hlen : i < days_back := by simpa using h2
    rw [List.getElem_reverse, List.getElem_map, List.getElem_map,
      List.getElem_range, List.getElem_range]
    simp only [List.length_map, List.length_range, AaveRow.mk.injEq,
      and_true, true_and, and_self]
    omega

/-! ### Independence of the reconcile walk from the bytecode probe -/

/-- The per-day walk never consults the `eth_getCode` response. -/
theorem atokenRows_code_irrel (c : Chain) (v : Option String) (decimals : Nat) :
    ∀ ds : List Nat,
      atokenRows { c with code := v } decimals ds = atokenRows c decimals ds := by
  intro ds
  induction ds with
  | nil => rfl
  | cons d ds ih =>
    simp only [atokenRows]
    have h1 : latestTs { c with code := v } = latestTs c := rfl
    have h2 : atokenRow { c with code := v } decimals d = atokenRow c decimals d := rfl
    rw [h1, h2, ih]

/-- Record count of an in-history invocation. -/
theorem get_atoken_length (c : Chain) (decimals s e : Nat)
    (hse : s ≤ e) (hhist : 86400 * e ≤ latestTs c) :
    (get_atoken_interest_range c decimals s e).length = e - s + 1 := by
  rw [get_atoken_complete c decimals s e hse hhist]
  simp [iterate_days]
  omega

/-! ### Concrete endpoints used as witnesses and counterexamples -/

/-- Two-block chain: block 0 at the epoch, block 1 at the last second of
day 0.  The stETH balance moves from 100 stETH to 101.5 stETH over the
day while exactly 1 token flowed in and none out, reproducing the
spec's REBASING formula check. -/
def chainW : Chain :=
  { T := fun b => if b = 0 then 0 else 86399,
    latest := 1,
    code := some ("0x6080"),
    balance := fun b => if b = 0 then 100 * 10 ^ 18 else 1015 * 10 ^ 17,
    sumIn := fun _ _ => 10 ^ 18,
    sumOut := fun _ _ => 0,
    deposits := fun _ _ => 10 ^ 18,
    withdrawals := fun _ _ => 0,
    firstLogInBlock := none,
    firstLogOutBlock := none }

/-- Single-block chain whose head timestamp lies 200 days out, so every
day of a 182-day range is inside chain history. -/
def chain180 : Chain :=
  { T := fun _ => 86400 * 200,
    latest := 0,
    code := some ("0x6080"),
    balance := fun _ => 0,
    sumIn := fun _ _ => 0,
    sumOut := fun _ _ => 0,
    deposits := fun _ _ => 0,
    withdrawals := fun _ _ => 0,
    firstLogInBlock := none,
    firstLogOutBlock := none }

/-- Eleven blocks spaced 12 hours apart: day 0 ends at block 1
(timestamp 43200 ≤ 86399) and day 1 starts at block 2
(timestamp 86400). -/
def chainC7 : Chain :=
  { T := fun b => 43200 * b,
    latest := 10,
    code := some ("0x6080"),
    balance := fun _ => 0,
    sumIn := fun _ _ => 0,
    sumOut := fun _ _ => 0,
    deposits := fun _ _ => 0,
    withdrawals := fun _ _ => 0,
    firstLogInBlock := none,
    firstLogOutBlock := none }

/-- An endpoint on the wrong chain: the token address has no bytecode
(`eth_getCode` answers `"0x"`). -/
def chainNB : Chain :=
  { T := fun _ => 0,
    latest := 0,
    code := some ("0x"),
    balance := fun _ => 0,
    sumIn := fun _ _ => 0,
    sumOut := fun _ _ => 0,
    deposits := fun _ _ => 0,
    withdrawals := fun _ _ => 0,
    firstLogInBlock := none,
    firstLogOutBlock := none }

/-! ### Claims -/

/-- C1: every day record of either reconciliation function carries
`yield = (end_balance - start_balance) - inflow + outflow`, where for
the aToken function the inflow/outflow are the day's deposits (mints)
and withdrawals (burns) and for the stETH function they are the day's
summed inbound and outbound transfers. -/
theorem claim_C1_yield_formula (c : Chain) (decimals s e : Nat) (fb : Option Nat) (today : Nat) :
    (∀ r ∈ get_atoken_interest_range c decimals s e,
      r.daily_interest = (r.end_balance - r.start_balance) - r.deposits + r.withdrawals) ∧
    (∀ r ∈ get_steth_rebases_from_first_activity c fb today,
      r.daily_rebase_reward_steth =
        (r.end_balance_steth - r.start_balance_steth)
          - r.transfers_in_steth + r.transfers_out_steth) := by
  constructor
  · intro r hr
    unfold get_atoken_interest_range at hr
    by_cases hlt : e < s
    · rw [if_pos hlt] at hr
      simp at hr
    · rw [if_neg hlt] at hr
      obtain ⟨d, _, rfl⟩ := mem_atokenRows c decimals _ r hr
      exact (atokenRow_formula c decimals d).1
  · intro r hr
    cases fb with
    | none => simp [get_steth_rebases_from_first_activity] at hr
    | some fbv =>
      simp only [get_steth_rebases_from_first_activity] at hr
      obtain ⟨d, _, rfl⟩ := mem_stethRows c _ r hr
      exact (stethRow_formula c d).1

/-- Full evaluation of the stETH walk on `chainW`: one record for day
0, bracketed by blocks 0 and 1, with the 100 → 101.5 balance move, 1
token in, 0 out, and a 0.5 rebase residual. -/
theorem chainW_steth_eval :
    get_steth_rebases_from_first_activity chainW (some 0) 0 =
      [{ date := 0, start_block := 0, end_block := 1,
         start_balance_steth := 100, end_balance_steth := 203 / 2,
         transfers_in_steth := 1, transfers_out_steth := 0,
         net_transfers_steth := 1, daily_rebase_reward_steth := 1 / 2 }] := by
  have hb1 : block_by_time chainW.T chainW.latest (dayStartTs 0) BMode.after = 0 := by decide
  have hb2 : block_by_time chainW.T chainW.latest
      (min (dayEndTs 0) (latestTs chainW)) BMode.before = 1 := by decide
  show stethRows chainW (iterate_days (chainW.T 0 / 86400) 0) = _
  have h0 : chainW.T 0 / 86400 = 0 := by decide
  rw [h0]
  have hdays : iterate_days 0 0 = [0] := by decide
  rw [hdays]
  show (if dayStartTs 0 > latestTs chainW then []
        else stethRow chainW 0 :: stethRows chainW []) = _
  rw [if_neg (by decide)]
  simp only [stethRows, stethRow, hb1, hb2]
  norm_num [chainW, WEI_PER_STETH, SRow.mk.injEq]

/-- C1 witness: on `chainW` the single produced stETH day record has
`start = 100`, `end = 101.5`, `inflow = 1`, `outflow = 0`, satisfies
the formula, and its yield is exactly `0.5`. -/
theorem claim_C1_witness :
    ((get_steth_rebases_from_first_activity chainW (some 0) 0).getD 0 defSRow).daily_rebase_reward_steth
      = (((get_steth_rebases_from_first_activity chainW (some 0) 0).getD 0 defSRow).end_balance_steth
          - ((get_steth_rebases_from_first_activity chainW (some 0) 0).getD 0 defSRow).start_balance_steth)
        - ((get_steth_rebases_from_first_activity chainW (some 0) 0).getD 0 defSRow).transfers_in_steth
        + ((get_steth_rebases_from_first_activity chainW (some 0) 0).getD 0 defSRow).transfers_out_steth ∧
    ((get_steth_rebases_from_first_activity chainW (some 0) 0).getD 0 defSRow).start_balance_steth = 100 ∧
    ((get_steth_rebases_from_first_activity chainW (some 0) 0).getD 0 defSRow).end_balance_steth = 203 / 2 ∧
    ((get_steth_rebases_from_first_activity chainW (some 0) 0).getD 0 defSRow).transfers_in_steth = 1 ∧
    ((get_steth_rebases_from_first_activity chainW (some 0) 0).getD 0 defSRow).transfers_out_steth = 0 ∧
    ((get_steth_rebases_from_first_activity chainW (some 0) 0).getD 0 defSRow).daily_rebase_reward_steth = 1 / 2 := by
  refine ⟨?_, ?_, ?_, ?_, ?_, ?_⟩
  · refine (claim_C1_yield_formula chainW 18 0 0 (some 0) 0).2 _ ?_
    rw [chainW_steth_eval]
    exact List.mem_singleton.mpr rfl
  all_goals rw [chainW_steth_eval]; norm_num [defSRow]

/-- Full evaluation of the aToken walk on `chainW` (decimals 18) for
the single day 0. -/
theorem chainW_atoken_eval :
    get_atoken_interest_range chainW 18 0 0 =
      [{ date := 0, start_block := 0, end_block := 1,
         start_balance := 100, end_balance := 203 / 2,
         deposits := 1, withdrawals := 0,
         net_transfers := -1, daily_interest := 1 / 2 }] := by
  have hb1 : block_by_time chainW.T chainW.latest (dayStartTs 0) BMode.after = 0 := by decide
  have hb2 : block_by_time chainW.T chainW.latest
      (min (dayEndTs 0) (latestTs chainW)) BMode.before = 1 := by decide
  unfold get_atoken_interest_range
  rw [if_neg (by norm_num)]
  have hdays : iterate_days 0 0 = [0] := by decide
  rw [hdays]
  show (if dayStartTs 0 > latestTs chainW then []
        else atokenRow chainW 18 0 :: atokenRows chainW 18 []) = _
  rw [if_neg (by decide)]
  simp only [atokenRows, atokenRow, hb1, hb2]
  norm_num [chainW, ARow.mk.injEq]

/-- C2 counterexample: on `chainW` the stETH record of day 0 has
`inflow = 1`, `outflow = 0` and `net_transfers = 1`, not
`outflow - inflow = -1`: steth.py line 193 computes `in - out`. -/
theorem claim_C2_counterexample :
    ((get_steth_rebases_from_first_activity chainW (some 0) 0).getD 0 defSRow).net_transfers_steth = 1 ∧
    ((get_steth_rebases_from_first_activity chainW (some 0) 0).getD 0 defSRow).transfers_out_steth
      - ((get_steth_rebases_from_first_activity chainW (some 0) 0).getD 0 defSRow).transfers_in_steth
      = -1 := by
  rw [chainW_steth_eval]
  norm_num

/-- C2 (amended): `net_transfers = outflow - inflow` holds for the
aToken records (ausdc.py line 315), while the stETH records carry the
opposite orientation `net_transfers = inflow - outflow`
(steth.py line 193). -/
theorem claim_C2_net_transfers (c : Chain) (decimals s e : Nat) (fb : Option Nat) (today : Nat) :
    (∀ r ∈ get_atoken_interest_range c decimals s e,
      r.net_transfers = r.withdrawals - r.deposits) ∧
    (∀ r ∈ get_steth_rebases_from_first_activity c fb today,
      r.net_transfers_steth = r.transfers_in_steth - r.transfers_out_steth) := by
  constructor
  · intro r hr
    unfold get_atoken_interest_range at hr
    by_cases hlt : e < s
    · rw [if_pos hlt] at hr
      simp at hr
    · rw [if_neg hlt] at hr
      obtain ⟨d, _, rfl⟩ := mem_atokenRows c decimals _ r hr
      exact (atokenRow_formula c decimals d).2
  · intro r hr
    cases fb with
    | none => simp [get_steth_rebases_from_first_activity] at hr
    | some fbv =>
      simp only [get_steth_rebases_from_first_activity] at hr
      obtain ⟨d, _, rfl⟩ := mem_stethRows c _ r hr
      exact (stethRow_formula c d).2

/-- C2 witness: the amended orientations hold on the concrete records
of `chainW` (aToken: `-1 = 0 - 1`; stETH: `1 = 1 - 0`). -/
theorem claim_C2_witness :
    ((get_atoken_interest_range chainW 18 0 0).getD 0 defARow).net_transfers
      = ((get_atoken_interest_range chainW 18 0 0).getD 0 defARow).withdrawals
        - ((get_atoken_interest_range chainW 18 0 0).getD 0 defARow).deposits ∧
    ((get_steth_rebases_from_first_activity chainW (some 0) 0).getD 0 defSRow).net_transfers_steth
      = ((get_steth_rebases_from_first_activity chainW (some 0) 0).getD 0 defSRow).transfers_in_steth
        - ((get_steth_rebases_from_first_activity chainW (some 0) 0).getD 0 defSRow).transfers_out_steth := by
  constructor
  · refine (claim_C2_net_transfers chainW 18 0 0 (some 0) 0).1 _ ?_
    rw [chainW_atoken_eval]
    exact List.mem_singleton.mpr rfl
  · refine (claim_C2_net_transfers chainW 18 0 0 (some 0) 0).2 _ ?_
    rw [chainW_steth_eval]
    exact List.mem_singleton.mpr rfl

/-- C3: with monotone timestamps, `_block_by_time` returns the
greatest block with timestamp ≤ target in `before` mode and the least
block with timestamp ≥ target in `after` mode, whenever a satisfying
block exists in `[0, latest]`. -/
theorem claim_C3_resolver_correct (T : Nat → Nat) (latest ts : Nat) (hmono : Monotone T) :
    ((∃ b, b ≤ latest ∧ T b ≤ ts) →
      T (block_by_time T latest ts BMode.before) ≤ ts ∧
      block_by_time T latest ts BMode.before ≤ latest ∧
      ∀ b, b ≤ latest → T b ≤ ts → b ≤ block_by_time T latest ts BMode.before) ∧
    ((∃ b, b ≤ latest ∧ ts ≤ T b) →
      ts ≤ T (block_by_time T latest ts BMode.after) ∧
      block_by_time T latest ts BMode.after ≤ latest ∧
      ∀ b, b ≤ latest → ts ≤ T b → block_by_time T latest ts BMode.after ≤ b) :=
  ⟨fun h => block_by_time_before_max T latest ts hmono h,
   fun h => block_by_time_after_min T latest ts hmono h⟩

/-- C3 witness: on the identity timestamp table with head 10 and
target 5, both searches must land exactly on block 5. -/
theorem claim_C3_witness :
    block_by_time (fun b => b) 10 5 BMode.before = 5 ∧
    block_by_time (fun b => b) 10 5 BMode.after = 5 := by
  have h := claim_C3_resolver_correct (fun b => b) 10 5 (fun a b hab => hab)
  obtain ⟨h1, h2, h3⟩ := h.1 ⟨5, by norm_num, by norm_num⟩
  obtain ⟨h4, h5, h6⟩ := h.2 ⟨5, by norm_num, by norm_num⟩
  constructor
  · exact le_antisymm (by simpa using h1) (h3 5 (by norm_num) (by norm_num))
  · exact le_antisymm (h6 5 (by norm_num) (by norm_num)) (by simpa using h4)

/-- C4 counterexample: on a 6-block chain with timestamps 0..5, an
`after` query for target 100 is unsatisfiable; the code returns block
0, not the latest block 5 promised by the claim. -/
theorem claim_C4_counterexample :
    block_by_time (fun b => b) 5 100 BMode.after = 0 ∧
    block_by_time (fun b => b) 5 100 BMode.after ≠ 5 := by
  constructor <;> decide

/-- C4 (amended): when no block satisfies the requested bound,
`_block_by_time` returns block 0 in both modes — so the `before`
half of the claim holds, but an unsatisfiable `after` query also
returns 0 rather than the latest block. -/
theorem claim_C4_amended (T : Nat → Nat) (latest ts : Nat) :
    ((∀ b, b ≤ latest → ts < T b) → block_by_time T latest ts BMode.before = 0) ∧
    ((∀ b, b ≤ latest → T b < ts) → block_by_time T latest ts BMode.after = 0) :=
  block_by_time_unsat T latest ts

/-- C4 witness: with timestamps `b + 10` on blocks 0..5, a `before`
query at 5 and an `after` query at 100 are both unsatisfiable and both
return block 0. -/
theorem claim_C4_witness :
    block_by_time (fun b => b + 10) 5 5 BMode.before = 0 ∧
    block_by_time (fun b => b + 10) 5 100 BMode.after = 0 := by
  constructor
  · exact (claim_C4_amended (fun b => b + 10) 5 5).1 (fun b hb => by omega)
  · exact (claim_C4_amended (fun b => b + 10) 5 100).2 (fun b hb => by omega)

/-- C5 counterexample: `get_atoken_interest_range` itself enforces no
span cap — a 182-day request (span 181 days > 180) against a chain
whose head is 200 days out yields 182 per-day records instead of being
rejected. -/
theorem claim_C5_counterexample :
    180 < run_window_total_days 0 181 ∧
    (get_atoken_interest_range chain180 6 0 181).length = 182 := by
  constructor
  · norm_num [run_window_total_days]
  · rw [get_atoken_length chain180 6 0 181 (by norm_num) (by decide)]

/-- C5 (amended): the reversed-range check lives in
`get_atoken_interest_range` (empty result when the end precedes the
start), while the 180-day cap is enforced by the dashboard executor
`run_window_and_stream_atoken` in app.py, which refuses to run any
window whose `total_days` exceeds 180. -/
theorem claim_C5_amended (c : Chain) (decimals s e sd ed : Nat)
    (h1 : e < s) (h2 : 180 < run_window_total_days sd ed) :
    get_atoken_interest_range c decimals s e = [] ∧
    run_window_and_stream_atoken_accepts sd ed = false := by
  constructor
  · unfold get_atoken_interest_range
    rw [if_pos h1]
  · unfold run_window_and_stream_atoken_accepts
    have hfalse : decide (run_window_total_days sd ed ≤ 180) = false := by
      simp only [decide_eq_false_iff_not]
      omega
    rw [hfalse, Bool.and_false]

/-- C5 witness: a reversed range yields no records and a 201-day
window is refused by the executor guard. -/
theorem claim_C5_witness :
    get_atoken_interest_range chainNB 6 1 0 = [] ∧
    run_window_and_stream_atoken_accepts 0 200 = false :=
  claim_C5_amended chainNB 6 1 0 0 200 (by norm_num) (by norm_num [run_window_total_days])

/-- C6: for a valid range lying inside chain history (the last day's
start not past the head timestamp, which is where the loop's break
fires) with span at most 180 days, the function emits exactly
`e - s + 1` records whose dates are the contiguous, strictly
increasing days `s, s+1, ..., e`. -/
theorem claim_C6_day_count (c : Chain) (decimals s e : Nat)
    (hse : s ≤ e) (hspan : e - s ≤ 180) (hhist : 86400 * e ≤ latestTs c) :
    (get_atoken_interest_range c decimals s e).length = e - s + 1 ∧
    (get_atoken_interest_range c decimals s e).map ARow.date = List.range' s (e - s + 1) := by
  constructor
  · exact get_atoken_length c decimals s e hse hhist
  · rw [get_atoken_complete c decimals s e hse hhist, List.map_map]
    unfold iterate_days
    have h1 : e + 1 - s = e - s + 1 := by omega
    rw [h1]
    have h2 : ∀ a ∈ List.range' s (e - s + 1), (ARow.date ∘ atokenRow c decimals) a = id a := by
      intro a _
      simp [atokenRow_date]
    rw [List.map_congr_left h2, List.map_id]

/-- C6 witness: a three-day in-history range produces three records
dated 0, 1, 2. -/
theorem claim_C6_witness :
    (get_atoken_interest_range chain180 0 0 2).length = 2 - 0 + 1 ∧
    (get_atoken_interest_range chain180 0 0 2).map ARow.date = List.range' 0 (2 - 0 + 1) :=
  claim_C6_day_count chain180 0 0 2 (by norm_num) (by norm_num) (by decide)

/-- C7 counterexample: on `chainC7` (blocks every 12 hours) day 0's
record ends at block 1 while day 1's record starts at block 2 — the
boundary blocks differ, refuting `record[i].end_block ==
record[i+1].start_block`. -/
theorem claim_C7_counterexample :
    ((get_atoken_interest_range chainC7 0 0 1).getD 0 defARow).end_block = 1 ∧
    ((get_atoken_interest_range chainC7 0 0 1).getD 1 defARow).start_block = 2 := by
  constructor <;> decide

/-- C7 (amended): within one in-history invocation over monotone
timestamps (with the genesis block at or before the range start),
consecutive records satisfy `record[i+1].start_block =
record[i].end_block + 1`; the two boundary blocks coincide only when
day `i`'s window collapsed, i.e. the second disjunct additionally
certifies `record[i].end_block = record[i].start_block`. -/
theorem claim_C7_amended (c : Chain) (decimals s e i : Nat) (hmono : Monotone c.T)
    (h0 : c.T 0 ≤ 86400 * s) (hhist : 86400 * e ≤ latestTs c)
    (hlen : i + 1 < (get_atoken_interest_range c decimals s e).length) :
    ((get_atoken_interest_range c decimals s e).getD (i + 1) defARow).start_block =
      ((get_atoken_interest_range c decimals s e).getD i defARow).end_block + 1 ∨
    (((get_atoken_interest_range c decimals s e).getD i defARow).end_block =
      ((get_atoken_interest_range c decimals s e).getD i defARow).start_block ∧
     ((get_atoken_interest_range c decimals s e).getD (i + 1) defARow).start_block =
      ((get_atoken_interest_range c decimals s e).getD i defARow).end_block) := by
  by_cases hse : s ≤ e
  · have hlen2 : (get_atoken_interest_range c decimals s e).length = e - s + 1 :=
      get_atoken_length c decimals s e hse hhist
    exact get_atoken_adjacent_core c decimals s e i hmono h0 hhist hse (by omega)
  · exfalso
    unfold get_atoken_interest_range at hlen
    rw [if_pos (by omega)] at hlen
    simp at hlen

/-- C7 witness: the amended adjacency holds on `chainC7`'s two-day
invocation (concretely, day 1 starts at block 2 = day 0's end block
1 plus one). -/
theorem claim_C7_witness :
    ((get_atoken_interest_range chainC7 0 0 1).getD (0 + 1) defARow).start_block =
      ((get_atoken_interest_range chainC7 0 0 1).getD 0 defARow).end_block + 1 ∨
    (((get_atoken_interest_range chainC7 0 0 1).getD 0 defARow).end_block =
      ((get_atoken_interest_range chainC7 0 0 1).getD 0 defARow).start_block ∧
     ((get_atoken_interest_range chainC7 0 0 1).getD (0 + 1) defARow).start_block =
      ((get_atoken_interest_range chainC7 0 0 1).getD 0 defARow).end_block) :=
  claim_C7_amended chainC7 0 0 1 0
    (fun a b hab => by simp only [chainC7]; omega)
    (by decide) (by decide) (by decide)

/-- C8 counterexample: against an endpoint where the token has no
bytecode (`eth_getCode` answers `"0x"`), the locate operation fails
fast — but `get_atoken_interest_range` performs no bytecode check at
all (ausdc.py lines 283-297 contain no `_assert_token_on_network`
call) and happily emits a day record. -/
theorem claim_C8_counterexample :
    bad_code chainNB.code = true ∧
    get_first_activity_date_atoken chainNB =
      .error ("no bytecode on this RPC network (wrong chain?)") ∧
    (get_atoken_interest_range chainNB 6 0 0).length = 1 := by
  refine ⟨by decide, by rfl, by decide⟩

/-- C8 (amended): `get_first_activity_date_atoken` fails fast with the
chain-mismatch error whenever the bytecode probe fails — its result on
that path is determined by the `eth_getCode` response alone, before
any block-search request — while `get_atoken_interest_range` never
consults the bytecode probe at all: its output is invariant under any
change of the `eth_getCode` response. -/
theorem claim_C8_amended :
    (∀ c : Chain, bad_code c.code = true →
      get_first_activity_date_atoken c =
        .error ("no bytecode on this RPC network (wrong chain?)")) ∧
    (∀ (c : Chain) (v : Option String) (decimals s e : Nat),
      get_atoken_interest_range { c with code := v } decimals s e =
        get_atoken_interest_range c decimals s e) := by
  constructor
  · intro c hc
    unfold get_first_activity_date_atoken assert_token_on_network
    rw [if_pos hc]
  · intro c v decimals s e
    unfold get_atoken_interest_range
    rw [atokenRows_code_irrel]

/-- C8 witness: on `chainNB` the locate operation reports the
chain-mismatch error, and changing the bytecode response does not
change the reconcile output. -/
theorem claim_C8_witness :
    get_first_activity_date_atoken chainNB =
      .error ("no bytecode on this RPC network (wrong chain?)") ∧
    get_atoken_interest_range { chainNB with code := some ("0xabc") } 6 0 0 =
      get_atoken_interest_range chainNB 6 0 0 :=
  ⟨claim_C8_amended.1 chainNB (by decide),
   claim_C8_amended.2 chainNB (some ("0xabc")) 6 0 0⟩

/-- C9 counterexample: steth.py's `_balance_of` decodes with a bare
`int(res, 16)`, which raises (modelled as `none`) on an empty or bare
`"0x"` response — its hex-decoding branch is not raise-free. -/
theorem claim_C9_counterexample :
    steth_balance_of_decode ("0x") = none ∧
    steth_balance_of_decode ("") = none := by
  constructor <;> rfl

/-- C9 (amended): ausdc.py's `_balance_of` (through `_int_hex_safe`)
maps `None`, `""` and `"0x"` responses to balance 0 without raising;
steth.py's `_balance_of` raises on such responses. -/
theorem claim_C9_amended :
    int_hex_safe none = some 0 ∧
    int_hex_safe (some ("")) = some 0 ∧
    int_hex_safe (some ("0x")) = some 0 ∧
    ausdc_balance_of_decode none = some 0 ∧
    ausdc_balance_of_decode (some ("")) = some 0 ∧
    ausdc_balance_of_decode (some ("0x")) = some 0 ∧
    steth_balance_of_decode ("0x") = none := by
  refine ⟨rfl, ?_, ?_, rfl, ?_, ?_, ?_⟩ <;> decide

/-- C10: the Aave tracker stub returns exactly `days_back` all-zero
records, one per UTC day, in increasing date order ending on the day
before `today`, independent of the wallet and of any chain data. -/
theorem claim_C10_stub_rows (wallet w2 : String) (today : Int) (days_back : Nat) :
    (get_aave_interest wallet today days_back).length = days_back ∧
    (∀ i, i < days_back →
      ((get_aave_interest wallet today days_back).getD i defAaveRow).date
        = today - (days_back : Int) + (i : Int)) ∧
    (∀ r ∈ get_aave_interest wallet today days_back,
      r.start_balance = 0 ∧ r.end_balance = 0 ∧ r.daily_interest = 0) ∧
    get_aave_interest wallet today days_back = get_aave_interest w2 today days_back := by
  refine ⟨?_, ?_, ?_, ?_⟩
  · rw [get_aave_interest_eq]
    simp
  · intro i hi
    rw [get_aave_interest_eq]
    have hlen : i < ((List.range days_back).map (fun (i : Nat) =>
        ({ date := today - (days_back : Int) + (i : Int), start_balance := 0,
           end_balance := 0, daily_interest := 0 } : AaveRow))).length := by
      simpa using hi
    rw [List.getD_eq_getElem?_getD, List.getElem?_eq_getElem hlen, Option.getD_some]
    simp
  · intro r hr
    rw [get_aave_interest_eq] at hr
    obtain ⟨i, hi, rfl⟩ := List.mem_map.mp hr
    exact ⟨rfl, rfl, rfl⟩
  · rw [get_aave_interest_eq, get_aave_interest_eq]

/-- C10 witness: with `today = 10` and `days_back = 2` the stub emits
two records dated 8 and 9 (the two days ending yesterday), for any
wallet. -/
theorem claim_C10_witness :
    ((get_aave_interest ("0xabc") 10 2).getD 0 defAaveRow).date = 10 - (2 : Int) + (0 : Int) ∧
    ((get_aave_interest ("0xabc") 10 2).getD 1 defAaveRow).date = 10 - (2 : Int) + (1 : Int) ∧
    (get_aave_interest ("0xabc") 10 2).length = 2 := by
  have h := claim_C10_stub_rows ("0xabc") ("0xdef") 10 2
  exact ⟨h.2.1 0 (by norm_num), h.2.1 1 (by norm_num), h.1⟩
